import Mathlib

/-!
Verification of the Product Radar extraction/diff pipeline.

This file shallowly embeds the core logic of `radar.py`,
`selectors.py` and `scripts/apply_brand_change.py`:

* the snapshot upgrade performed by `load_state`,
* the scoring heuristic of `find_candidate_products`,
* the within-page insert-or-override merge keyed by `(name, url)`,
* the cross-page deduplication of `brand_scan`,
* `diff_new` and `choose_best`,
* the brand-list CLI `apply_brand_change.py`.

Modelling conventions:
* JSON values parsed by `json.loads` are modelled by the inductive `J`;
  Python `dict.get(k, d)` is `(jget fields k).getD d`.
* Python floats are modelled by exact rationals (`Rat`); every fact proved
  below only involves values on which binary floating point is exact.
* A Python function call that raises an uncaught exception is modelled by
  `Option.none`.
* Python string containment `needle in hay` (used both for keyword scoring
  and, in the spec, for status classification) is `strContains hay needle`.
-/

/-- JSON values, as produced by `json.loads` in `radar.py`. -/
inductive J where
  | str (s : String)
  | num (q : Rat)
  | bool (b : Bool)
  | null
  | obj (fields : List (String × J))
  | arr (elems : List J)

/-- Python `dict` lookup on a JSON object: first binding of the key
(JSON objects have unique keys, so first-match lookup is exact). -/
def jget : List (String × J) → String → Option J
  | [], _ => none
  | (k0, v) :: rest, k => if k0 = k then some v else jget rest k

/-- Python `float(x)` as used on snapshot `score` fields in `load_state`:
numbers pass through, booleans coerce to 0/1, anything else raises
(modelled as `none`).  Python additionally parses numeric strings; snapshot
scores written by this program are always JSON numbers, so string inputs
are modelled as failures. -/
def pyFloat : J → Option Rat
  | .num q => some q
  | .bool b => some (if b then 1 else 0)
  | _ => none

/-- The legacy-string upgrade of `load_state` (radar.py line 78): each row
`r` of a legacy list becomes `{"name": r, "url": "", "score": 0.0,
"status": "unknown"}`.  Python applies this to every row whenever the first
row is a string, whatever the row's own type, so the argument is any `J`. -/
def legacyConv (r : J) : J :=
  .obj [("name", r), ("url", .str ""), ("score", .num 0),
        ("status", .str "unknown")]

/-- The record-normalisation branch of `load_state` (radar.py lines 82-88):
`{"name": r.get("name",""), "url": r.get("url",""),
"score": float(r.get("score", 0.0)), "status": r.get("status","unknown")}`.
A non-dict row raises `AttributeError` (`none`); a `score` value that
`float` rejects raises too. -/
def upgradeRow (r : J) : Option J :=
  match r with
  | .obj fields =>
    match pyFloat ((jget fields "score").getD (.num 0)) with
    | some sc =>
      some (.obj [("name", (jget fields "name").getD (.str "")),
                  ("url", (jget fields "url").getD (.str "")),
                  ("score", .num sc),
                  ("status", (jget fields "status").getD (.str "unknown"))])
    | none => none
  | _ => none

/-- The Python `for` loop building `fixed_rows`: apply `f` to every row in
order, propagating the first exception. -/
def mapOpt (f : J → Option J) : List J → Option (List J)
  | [] => some []
  | x :: xs =>
    match f x with
    | none => none
    | some y =>
      match mapOpt f xs with
      | none => none
      | some ys => some (y :: ys)

/-- One brand's branch of `load_state` (radar.py lines 76-89): if the list
is non-empty and its first element is a string the whole list is converted
as legacy strings, otherwise every element is normalised as a record. -/
def upgradeRows (rows : List J) : Option (List J) :=
  match rows with
  | [] => some []
  | r :: rest =>
    match r with
    | .str s => some ((J.str s :: rest).map legacyConv)
    | _ => mapOpt upgradeRow (r :: rest)

/-!
String helpers.  Core `String.toLower`, `String.trim` and the string order
are implemented on byte positions and do not reduce in the kernel, so the
embedding works on the underlying character lists, which agrees with
Python's code-point-wise semantics for `str.lower`, `str.strip`, `in` and
string comparison.
-/

/-- Python `s.lower()`. -/
def strLower (s : String) : String := ⟨s.data.map Char.toLower⟩

/-- Python `s.strip()`: drop whitespace from both ends. -/
def pyStrip (s : String) : String :=
  ⟨((s.data.dropWhile Char.isWhitespace).reverse.dropWhile
      Char.isWhitespace).reverse⟩

/-- Containment of `needle` in `hay` over character lists; `containsSub hay
needle` checks whether `needle` occurs contiguously in `hay`. -/
def containsSub : List Char → List Char → Bool
  | [], needle => needle.isEmpty
  | h :: t, needle => needle.isPrefixOf (h :: t) || containsSub t needle

/-- Python `needle in hay` on strings. -/
def strContains (hay needle : String) : Bool := containsSub hay.data needle.data

/-- Python lexicographic string comparison `a <= b` by code point, used by
`sorted(..., key=...)` in `apply_brand_change.py`. -/
def leChars : List Char → List Char → Bool
  | [], _ => true
  | _ :: _, [] => false
  | a :: as, b :: bs => if a = b then leChars as bs else decide (a < b)

/-- The keyword list of `selectors.py` (`GENERIC_KEYWORDS`). -/
def GENERIC_KEYWORDS : List String :=
  ["bestseller", "best seller", "best-selling",
   "back in stock", "restock", "restocked",
   "most popular", "popular",
   "trending",
   "new arrivals", "new in", "just dropped"]

/-!
Scoring (`find_candidate_products`, radar.py lines 218-240 and 285-301).
-/

/-- The collection-hint bump of `find_candidate_products` (radar.py lines
218-224): starting from 1.0, add 3.0 if the lower-cased hint contains a
best-family keyword and additionally 2.0 if it contains a new-family
keyword; `None` (and the falsy empty hint) adds nothing. -/
def base_score (hint : Option String) : Rat :=
  match hint with
  | none => 1
  | some hintStr =>
    1 + (if ["best", "popular", "bestseller", "top"].any
            (fun k => strContains (strLower hintStr) k) then 3 else 0)
      + (if ["new", "latest", "drop", "arrivals", "just-dropped"].any
            (fun k => strContains (strLower hintStr) k) then 2 else 0)

/-- The generic-keyword bump: +3.0 when the given lower-cased text contains
any `GENERIC_KEYWORDS` entry (radar.py lines 237-238 and 291-292). -/
def kw_bonus (text : String) : Rat :=
  if GENERIC_KEYWORDS.any (fun kw => strContains text kw) then 3 else 0

/-- Score of a structured-data (Pass A) candidate (radar.py lines 235-240):
base, plus keyword bump on the lower-cased name, plus rating, plus
`min(5.0, reviews / 10.0)`. -/
def passA_score (name : String) (hint : Option String)
    (rating reviews : Rat) : Rat :=
  base_score hint + kw_bonus (strLower name) + rating + min 5 (reviews / 10)

/-- Score of a CSS-fallback (Pass B) candidate (radar.py lines 290-292):
base plus keyword bump on the surrounding lower-cased local text. -/
def passB_score (localText : String) (hint : Option String) : Rat :=
  base_score hint + kw_bonus localText

/-!
Candidate records and the two merge layers.
-/

/-- A candidate-product record as built by `find_candidate_products`: the
dict `{name, url, price, currency, score}`.  The extraction passes never
attach a `"status"` key, so `status` is an `Option` with `none` meaning the
key is absent (records coming from an upgraded snapshot carry `some`). -/
structure PRecord where
  name : String
  url : String
  price : J
  currency : J
  score : Rat
  status : Option String

/-- Identity key `(name.lower(), url.lower())` (`product_key`, radar.py
lines 102-106). -/
def product_key (p : PRecord) : String × String :=
  (strLower p.name, strLower p.url)

/-- A Pass A record (radar.py lines 244-250): carries the extracted price
and currency, no status key. -/
def passA_record (name url : String) (price currency : J) (score : Rat) :
    PRecord :=
  ⟨name, url, price, currency, score, none⟩

/-- A Pass B record (radar.py lines 296-302): `price` and `currency` are
always `None`, no status key. -/
def passB_record (name href : String) (score : Rat) : PRecord :=
  ⟨name, href, J.null, J.null, score, none⟩

/-- The status column rendered by `format_markdown` and the email body:
`p.get("status", "unknown")` (radar.py lines 416 and 494). -/
def statusShown (p : PRecord) : String := p.status.getD "unknown"

/-- Modelled from the spec: the Status Classifier (spec section 4.2) does
not exist anywhere under `src/` — no code there derives a status from the
product name, even though the module docstring of `radar.py` says a status
is stored for each product.  Following the spec words: name containing
"sold out" gives `sold out`, containing both "only" and "left" gives
`low stock`, anything else `available` (containment checked on the
lower-cased name so that the spec's examples classify as stated). -/
def classify_status (name : String) : String :=
  if strContains (strLower name) "sold out" then "sold out"
  else if strContains (strLower name) "only" && strContains (strLower name) "left"
    then "low stock"
  else "available"

/-- First-match lookup in the within-page `products` dict of
`find_candidate_products` (it is keyed by the identity key; Python dicts
have unique keys, so first-match lookup is exact). -/
def lookupKey : List ((String × String) × PRecord) → (String × String) →
    Option PRecord
  | [], _ => none
  | (k0, v) :: rest, k => if k0 = k then some v else lookupKey rest k

/-- Replace the value stored at a key, keeping insertion order: the model
of `existing.update(record)`, which overwrites every field of the stored
dict in place. -/
def setVal : List ((String × String) × PRecord) → (String × String) →
    PRecord → List ((String × String) × PRecord)
  | [], _, _ => []
  | (k0, v) :: rest, k, r =>
    if k0 = k then (k0, r) :: rest else (k0, v) :: setVal rest k r

/-- The insert-or-override step shared by both passes of
`find_candidate_products` (radar.py lines 242-255 and 294-307): a new
record replaces the stored one for its identity key exactly when its score
is strictly higher; an unseen key is appended in encounter order. -/
def prodInsert (m : List ((String × String) × PRecord)) (r : PRecord) :
    List ((String × String) × PRecord) :=
  match lookupKey m (product_key r) with
  | none => m ++ [(product_key r, r)]
  | some e => if e.score < r.score then setVal m (product_key r) r else m

/-- The cross-page deduplication loop of `brand_scan` (radar.py lines
387-393): keep a record exactly when its identity key has not been seen
yet.  The Python `seen` set is modelled as the list of keys added so far. -/
def dedupAux : List PRecord → List (String × String) → List PRecord
  | [], _ => []
  | p :: rest, seen =>
    if product_key p ∈ seen then dedupAux rest seen
    else p :: dedupAux rest (product_key p :: seen)

/-- The cross-page merge of `brand_scan` (radar.py lines 386-395): the
per-page candidate lists are concatenated in visit order, deduplicated by
identity key, and capped at 30. -/
def brand_merge (pages : List (List PRecord)) : List PRecord :=
  (dedupAux pages.flatten []).take 30

/-- An element of a previous snapshot list as accepted by `diff_new`:
either a legacy bare name string or a full record. -/
inductive PrevItem where
  | str (s : String)
  | record (p : PRecord)

/-- The key under which `diff_new` registers a previous item (radar.py
lines 429-433): a legacy string `s` becomes `(s.lower(), "")`, a record
its identity key. -/
def prevKey : PrevItem → String × String
  | .str s => (strLower s, "")
  | .record p => product_key p

/-- The state differ `diff_new` (radar.py lines 427-434): keep the current
records whose identity key is not among the previous keys.  A missing
previous list (`prev_list or []`) corresponds to the empty list here. -/
def diff_new (prev : List PrevItem) (current : List PRecord) :
    List PRecord :=
  current.filter (fun p => decide (product_key p ∉ prev.map prevKey))

/-- One comparison step of Python `max(products, key=lambda p: score)`:
the running maximum is replaced only by a strictly greater score, so the
first maximum encountered wins. -/
def maxStep (acc q : PRecord) : PRecord :=
  if acc.score < q.score then q else acc

/-- The best pick `choose_best` (radar.py lines 437-440): `None` on an
empty list, otherwise Python `max` with the score as key. -/
def choose_best : List PRecord → Option PRecord
  | [] => none
  | p :: rest => some (rest.foldl maxStep p)

/-!
The brand-list CLI (`scripts/apply_brand_change.py`).
-/

/-- The two CLI actions. -/
inductive BrandAction where
  | add
  | remove

/-- One entry of `brands.json`. -/
structure BrandEntry where
  name : String
  url : String

/-- The inner `idx_of` of `apply_brand_change.py` (lines 27-31): index of
the first entry whose name matches case-insensitively. -/
def idx_of (brands : List BrandEntry) (nm : String) : Option Nat :=
  brands.findIdx? (fun it => strLower it.name == strLower nm)

/-- The sort key comparison used when persisting:
`sorted(brands, key=lambda x: x.get("name","").lower())`. -/
def brandLe (a b : BrandEntry) : Bool :=
  leChars (strLower a.name).data (strLower b.name).data

/-- Persisting order: Python `sorted` is a stable merge sort over the
lower-cased names. -/
def sortBrands (brands : List BrandEntry) : List BrandEntry :=
  brands.mergeSort brandLe

/-- The whole effect of one `apply_brand_change.py` invocation on the brand
list (lines 15-54): `some l` means `brands.json` is rewritten with `l`,
`none` means the script exits with status 1 before saving (`sys.exit(1)`
when adding an unknown name without a URL).  Name and URL are stripped on
entry, exactly as in `main`. -/
def apply_brand_change (brands : List BrandEntry) (action : BrandAction)
    (rawName rawUrl : String) : Option (List BrandEntry) :=
  let name := pyStrip rawName
  let url := pyStrip rawUrl
  match action with
  | .add =>
    match idx_of brands name with
    | some i =>
      let cur := brands.getD i ⟨"", ""⟩
      let brands2 :=
        if url ≠ "" ∧ cur.url ≠ url then brands.set i ⟨cur.name, url⟩
        else brands
      some (sortBrands brands2)
    | none =>
      if url = "" then none
      else some (sortBrands (brands ++ [⟨name, url⟩]))
  | .remove =>
    match idx_of brands name with
    | some i => some (sortBrands (brands.eraseIdx i))
    | none => some (sortBrands brands)

/-!
Concrete values used to instantiate the statements below.
-/

/-- A record as a base-page visit of `brand_scan` could yield it. -/
def pageRecA : PRecord :=
  ⟨"Alpha Tee", "https://s/products/alpha", J.null, J.null, 1, none⟩

/-- The same product seen on an alternate-path visit with a higher score. -/
def pageRecB : PRecord :=
  ⟨"Alpha Tee", "https://s/products/alpha", J.null, J.null, 5, none⟩

/-- A current candidate named "Shoe" with a non-empty URL. -/
def shoeCand : PRecord := ⟨"Shoe", "https://x/a", J.null, J.null, 2, none⟩

/-- A current candidate named "Shoe" with an empty URL. -/
def shoeNoUrl : PRecord := ⟨"Shoe", "", J.null, J.null, 2, none⟩

/-- A snapshot row already in the current record shape. -/
def snapRow : J :=
  .obj [("name", .str "Alpha Tee"), ("url", .str "https://s/p"),
        ("score", .num 2), ("status", .str "available")]

/-- A stored Pass A record holding structured-data price information. -/
def storedA : PRecord :=
  ⟨"Alpha Tee", "https://s/p", J.str "30", J.str "GBP", 4, none⟩

/-- A one-entry within-page products map holding `storedA`. -/
def mapA : List ((String × String) × PRecord) :=
  [(("alpha tee", "https://s/p"), storedA)]

/-- A list with a unique maximal score in second position. -/
def cbA : PRecord := ⟨"a", "u1", J.null, J.null, 2, none⟩

/-- Second element, first of the two tied maxima. -/
def cbB : PRecord := ⟨"b", "u2", J.null, J.null, 5, none⟩

/-- Third element, tied with `cbB`. -/
def cbC : PRecord := ⟨"c", "u3", J.null, J.null, 5, none⟩

/-- The input list for the `choose_best` instantiation. -/
def cbList : List PRecord := [cbA, cbB, cbC]

/-- A concrete brand list, already sorted. -/
def brandsEx : List BrandEntry := [⟨"Acme", "https://acme.example"⟩]

/-!
Theorems.
-/

/-- C3: the claim reads the spec's Status Classifier: the status of a
CSS-fallback candidate is a pure function of the normalized name (contains
"sold out" gives sold out, contains "only" and "left" gives low stock,
else available).  The classifier, modelled from the spec as
`classify_status`, does classify the three examples as claimed, but the
code under `src/` never applies it: a Pass B record carries no status key
at all, and the report renders its status as "unknown" — for "Classic Cap"
the claim demands "available". -/
theorem c3_status_evidence :
    classify_status "Only 2 Left - Cap" = "low stock" ∧
    classify_status "Cap - Sold Out" = "sold out" ∧
    classify_status "Classic Cap" = "available" ∧
    (passB_record "Classic Cap" "https://s/products/cap" 1).status = none ∧
    statusShown (passB_record "Classic Cap" "https://s/products/cap" 1) =
      "unknown" :=
  ⟨rfl, rfl, rfl, rfl, rfl⟩

/-- C5: "Bestseller Hoodie" with no hint and no rating/review signals
scores 1.0 + 3.0 = 4.0; the same name under hint "best" scores 1.0 + 3.0
(hint) + 3.0 (keyword) = 7.0; and the two hint families are additive: a
hint containing a best-family and a new-family keyword gets 1 + 3 + 2. -/
theorem c5_scoring :
    passA_score "Bestseller Hoodie" none 0 0 = 4 ∧
    passA_score "Bestseller Hoodie" (some "best") 0 0 = 7 ∧
    passB_score (strLower "Bestseller Hoodie") none = 4 ∧
    passB_score (strLower "Bestseller Hoodie") (some "best") = 7 ∧
    base_score (some "top new arrivals") = 1 + 3 + 2 := by
  refine ⟨?_, ?_, ?_, ?_, ?_⟩
  · show (1 : Rat) + 3 + 0 + min 5 (0 / 10) = 4
    norm_num [min_def]
  · show (1 : Rat) + 3 + 0 + 3 + 0 + min 5 (0 / 10) = 7
    norm_num [min_def]
  · show (1 : Rat) + 3 = 4
    norm_num
  · show (1 : Rat) + 3 + 0 + 3 = 7
    norm_num
  · show (1 : Rat) + 3 + 2 = 1 + 3 + 2
    rfl

/-- C6: `diff_new` with an empty (or absent, since `prev_list or []`
replaces an absent list by the empty one) previous list returns the full
current list unchanged, in order. -/
theorem c6_diff_new_empty_prev (cur : List PRecord) : diff_new [] cur = cur := by
  simp [diff_new]

/-- C2 as stated is false: a legacy bare string "Shoe" in the previous
list registers the key `("shoe", "")`, so a current candidate named "Shoe"
whose URL is non-empty has a different identity key and is NOT excluded:
`diff_new` keeps it. -/
theorem c2_counterexample :
    diff_new [PrevItem.str "Shoe"] [shoeCand] = [shoeCand] ∧
    shoeCand.name = "Shoe" ∧ shoeCand.url ≠ "" :=
  ⟨rfl, rfl, by decide⟩

/-- C2 (amended): with a legacy bare string `s` in the previous list,
`diff_new` excludes a current candidate whose lower-cased name equals the
lower-cased `s` exactly when the candidate's URL is empty (the legacy form
carries the key `(s.lower(), "")`), not regardless of its URL. -/
theorem c2_amended_legacy_excludes (prev : List PrevItem)
    (cur : List PRecord) (s : String) (p : PRecord)
    (hs : PrevItem.str s ∈ prev) (hn : strLower p.name = strLower s)
    (hu : p.url = "") : p ∉ diff_new prev cur := by
  intro hmem
  rw [diff_new, List.mem_filter, decide_eq_true_eq] at hmem
  apply hmem.2
  have hkey : prevKey (PrevItem.str s) = product_key p := by
    unfold prevKey product_key
    rw [hn, hu]
    rfl
  rw [← hkey]
  exact List.mem_map_of_mem prevKey hs

/-- Instantiation of the amended C2: the empty-URL candidate named "Shoe"
is excluded. -/
theorem c2_amended_witness :
    shoeNoUrl ∉ diff_new [PrevItem.str "Shoe"] [shoeNoUrl] :=
  c2_amended_legacy_excludes _ _ "Shoe" shoeNoUrl (List.Mem.head _) rfl rfl

/-- The cross-page dedup loop keeps, for every surviving record, exactly
the first record of the input carrying its identity key, and never a key
already in `seen`. -/
theorem dedupAux_first_seen (l : List PRecord) :
    ∀ (seen : List (String × String)) (p : PRecord), p ∈ dedupAux l seen →
      product_key p ∉ seen ∧
      l.find? (fun q => decide (product_key q = product_key p)) = some p := by
  induction l with
  | nil => intro seen p hp; simp [dedupAux] at hp
  | cons r rest ih =>
    intro seen p hp
    rw [dedupAux] at hp
    by_cases hr : product_key r ∈ seen
    · rw [if_pos hr] at hp
      obtain ⟨hns, hfind⟩ := ih seen p hp
      have hne : ¬ (product_key r = product_key p) := fun he => hns (he ▸ hr)
      refine ⟨hns, ?_⟩
      rw [List.find?_cons_of_neg _ (by simpa using hne)]
      exact hfind
    · rw [if_neg hr] at hp
      rcases List.mem_cons.mp hp with rfl | hp2
      · exact ⟨hr, by rw [List.find?_cons_of_pos _ (by simp)]⟩
      · obtain ⟨hns, hfind⟩ := ih _ p hp2
        have hnotin : product_key p ∉ seen :=
          fun hin => hns (List.mem_cons_of_mem _ hin)
        have hne : ¬ (product_key r = product_key p) :=
          fun he => hns (he ▸ List.mem_cons_self _ _)
        refine ⟨hnotin, ?_⟩
        rw [List.find?_cons_of_neg _ (by simpa using hne)]
        exact hfind

/-- C1 as stated is false: the cross-page deduplication of `brand_scan`
keeps the first-seen record per identity key, not the highest-scoring one,
and the merged records therefore depend on page order.  Concretely, the
same product seen with score 1 on the base page and score 5 on an
alternate page merges to score 1 (the claim demands the max, 5), and
merging in the opposite order gives a different result. -/
theorem c1_counterexample :
    brand_merge [[pageRecA], [pageRecB]] = [pageRecA] ∧
    product_key pageRecA = product_key pageRecB ∧
    pageRecA.score = 1 ∧ pageRecB.score = 5 ∧
    brand_merge [[pageRecA], [pageRecB]] ≠ brand_merge [[pageRecB], [pageRecA]] := by
  refine ⟨rfl, rfl, rfl, rfl, ?_⟩
  intro h
  have h2 := congrArg (fun l => l.map PRecord.score) h
  have h3 : ([1] : List Rat) = [5] := h2
  have h4 : (1 : Rat) = 5 := by injection h3
  norm_num at h4

/-- C1 (amended): the cross-page merge deduplicates by identity key, but
per key it carries the record — and in particular the score — of the
first-seen occurrence in visit order, not the maximum: every record of
`brand_merge pages` is the first record of the page concatenation bearing
its identity key.  Consequently the set of surviving identity keys (below
the 30 cap) does not depend on page order, while the carried scores do. -/
theorem c1_amended_first_seen_dedup (pages : List (List PRecord))
    (p : PRecord) (hp : p ∈ brand_merge pages) :
    pages.flatten.find? (fun q => decide (product_key q = product_key p)) =
      some p := by
  rw [brand_merge] at hp
  exact (dedupAux_first_seen pages.flatten [] p (List.mem_of_mem_take hp)).2

/-- Instantiation of the amended C1 on the two-page example. -/
theorem c1_amended_witness :
    ([[pageRecA], [pageRecB]] : List (List PRecord)).flatten.find?
      (fun q => decide (product_key q = product_key pageRecA)) =
        some pageRecA :=
  c1_amended_first_seen_dedup [[pageRecA], [pageRecB]] pageRecA
    (show pageRecA ∈ [pageRecA] from List.mem_singleton.mpr rfl)

/-- A legacy-converted row is a fixed point of the record normalisation. -/
theorem upgradeRow_legacyConv (r : J) :
    upgradeRow (legacyConv r) = some (legacyConv r) := rfl

/-- The row loop maps a list of fixed points to itself. -/
theorem mapOpt_fixed (f : J → Option J) (l : List J)
    (h : ∀ x ∈ l, f x = some x) : mapOpt f l = some l := by
  induction l with
  | nil => rfl
  | cons x xs ih =>
    rw [mapOpt, h x (List.Mem.head _),
      ih (fun y hy => h y (List.Mem.tail _ hy))]

/-- Every output row of the row loop is the image of some input row. -/
theorem mapOpt_images (f : J → Option J) (l l2 : List J)
    (h : mapOpt f l = some l2) : ∀ y ∈ l2, ∃ x, f x = some y := by
  induction l generalizing l2 with
  | nil =>
    rw [mapOpt] at h
    injection h with h2
    subst h2
    intro y hy
    simp at hy
  | cons x xs ih =>
    rw [mapOpt] at h
    cases hfx : f x with
    | none => rw [hfx] at h; exact absurd h (by simp)
    | some y0 =>
      rw [hfx] at h
      cases hm : mapOpt f xs with
      | none => rw [hm] at h; exact absurd h (by simp)
      | some ys =>
        rw [hm] at h
        injection h with h2
        subst h2
        intro y hy
        rcases List.mem_cons.mp hy with rfl | hy2
        · exact ⟨x, hfx⟩
        · exact ih ys hm y hy2

/-- A successful output of the record normalisation is an object. -/
theorem upgradeRow_obj (x y : J) (h : upgradeRow x = some y) :
    ∃ gs, y = J.obj gs := by
  cases x with
  | obj fields =>
    rw [upgradeRow] at h
    cases hsc : pyFloat ((jget fields "score").getD (J.num 0)) with
    | none => rw [hsc] at h; exact absurd h (by simp)
    | some sc =>
      rw [hsc] at h
      injection h with h2
      exact ⟨_, h2.symm⟩
  | str s => simp [upgradeRow] at h
  | num q => simp [upgradeRow] at h
  | bool b => simp [upgradeRow] at h
  | null => simp [upgradeRow] at h
  | arr es => simp [upgradeRow] at h

/-- A successful output of the record normalisation is a fixed point:
normalising it again reproduces it unchanged. -/
theorem upgradeRow_fixedpoint (x y : J) (h : upgradeRow x = some y) :
    upgradeRow y = some y := by
  cases x with
  | obj fields =>
    rw [upgradeRow] at h
    cases hsc : pyFloat ((jget fields "score").getD (J.num 0)) with
    | none => rw [hsc] at h; exact absurd h (by simp)
    | some sc =>
      rw [hsc] at h
      injection h with h2
      subst h2
      rfl
  | str s => simp [upgradeRow] at h
  | num q => simp [upgradeRow] at h
  | bool b => simp [upgradeRow] at h
  | null => simp [upgradeRow] at h
  | arr es => simp [upgradeRow] at h

/-- C4: the snapshot upgrade of `load_state` is idempotent: whenever the
upgrade succeeds on a brand's row list, running it again on the upgraded
rows succeeds and changes nothing (scores modelled as exact rationals). -/
theorem c4_upgrade_idempotent (rows out : List J)
    (h : upgradeRows rows = some out) : upgradeRows out = some out := by
  cases rows with
  | nil =>
    rw [upgradeRows] at h
    injection h with h2
    subst h2
    rfl
  | cons r rest =>
    cases r with
    | str s =>
      rw [upgradeRows] at h
      injection h with h2
      subst h2
      have hfix : ∀ x ∈ (J.str s :: rest).map legacyConv,
          upgradeRow x = some x := by
        intro x hx
        obtain ⟨r0, _, hr0⟩ := List.mem_map.mp hx
        rw [← hr0]
        exact upgradeRow_legacyConv r0
      show mapOpt upgradeRow ((J.str s :: rest).map legacyConv) =
        some ((J.str s :: rest).map legacyConv)
      exact mapOpt_fixed _ _ hfix
    | obj fields =>
      have h2 : mapOpt upgradeRow (J.obj fields :: rest) = some out := h
      have hfix : ∀ y ∈ out, upgradeRow y = some y := by
        intro y hy
        obtain ⟨x, hx⟩ := mapOpt_images _ _ _ h2 y hy
        exact upgradeRow_fixedpoint x y hx
      have hmap : mapOpt upgradeRow out = some out := mapOpt_fixed _ _ hfix
      cases out with
      | nil => rfl
      | cons y ys =>
        obtain ⟨x, hx⟩ := mapOpt_images _ _ _ h2 y (List.Mem.head _)
        obtain ⟨gs, hgs⟩ := upgradeRow_obj x y hx
        subst hgs
        exact hmap
    | num q => exact absurd h (by simp [upgradeRows, mapOpt, upgradeRow])
    | bool b => exact absurd h (by simp [upgradeRows, mapOpt, upgradeRow])
    | null => exact absurd h (by simp [upgradeRows, mapOpt, upgradeRow])
    | arr es => exact absurd h (by simp [upgradeRows, mapOpt, upgradeRow])

/-- Instantiation of C4 on a snapshot row already in the current shape. -/
theorem c4_witness : upgradeRows [snapRow] = some [snapRow] :=
  c4_upgrade_idempotent [snapRow] [snapRow] rfl

/-- The row loop fails whenever any row makes `f` fail. -/
theorem mapOpt_none_of_mem (f : J → Option J) (l : List J) (x : J)
    (hx : x ∈ l) (hfx : f x = none) : mapOpt f l = none := by
  induction l with
  | nil => simp at hx
  | cons y ys ih =>
    rw [mapOpt]
    cases hfy : f y with
    | none => rfl
    | some y0 =>
      rcases List.mem_cons.mp hx with rfl | hx2
      · rw [hfy] at hfx; exact absurd hfx (by simp)
      · rw [ih hx2]

/-- C10: `load_state` decides the shape of a brand's snapshot list solely
from its first element.  A string first element converts the whole list as
legacy strings; a record first element puts every element — including any
bare string appearing later — through record normalisation, which raises
on a string (`r.get` on a `str`), so the load fails instead of upgrading
that element. -/
theorem c10_first_element_decides (s t : String)
    (fields : List (String × J)) (rest : List J) :
    upgradeRows (J.str s :: rest) = some ((J.str s :: rest).map legacyConv) ∧
    (J.str t ∈ rest → upgradeRows (J.obj fields :: rest) = none) := by
  refine ⟨rfl, fun ht => ?_⟩
  show mapOpt upgradeRow (J.obj fields :: rest) = none
  exact mapOpt_none_of_mem _ _ (J.str t) (List.Mem.tail _ ht) rfl

/-- Instantiation of C10: a record-first list containing a bare string
later makes the load fail. -/
theorem c10_witness :
    upgradeRows [J.obj [("name", J.str "A")], J.str "B"] = none :=
  (c10_first_element_decides "A" "B" [("name", J.str "A")]
    [J.str "B"]).2 (List.Mem.head _)

/-- Overwriting the value stored at a key leaves it retrievable. -/
theorem lookup_setVal (m : List ((String × String) × PRecord))
    (k : String × String) (r e : PRecord) (h : lookupKey m k = some e) :
    lookupKey (setVal m k r) k = some r := by
  induction m with
  | nil => simp [lookupKey] at h
  | cons kv rest ih =>
    obtain ⟨k0, v⟩ := kv
    by_cases hk : k0 = k
    · subst hk
      simp [setVal, lookupKey]
    · rw [lookupKey, if_neg hk] at h
      rw [setVal, if_neg hk, lookupKey, if_neg hk]
      exact ih h

/-- C9: in the within-page merge, when a Pass B record with the same
identity key strictly out-scores the stored record, `existing.update(record)`
replaces every stored field; since a Pass B record always carries
`price=None, currency=None`, the stored price and currency are overwritten
with null. -/
theorem c9_fallback_overwrites_price
    (m : List ((String × String) × PRecord)) (n h : String) (s : Rat)
    (e : PRecord)
    (hl : lookupKey m (product_key (passB_record n h s)) = some e)
    (hs : e.score < s) :
    lookupKey (prodInsert m (passB_record n h s))
        (product_key (passB_record n h s)) = some (passB_record n h s) ∧
    (passB_record n h s).price = J.null ∧
    (passB_record n h s).currency = J.null := by
  refine ⟨?_, rfl, rfl⟩
  rw [prodInsert, hl]
  show lookupKey
      (if e.score < (passB_record n h s).score
        then setVal m (product_key (passB_record n h s)) (passB_record n h s)
        else m)
      (product_key (passB_record n h s)) = some (passB_record n h s)
  rw [if_pos (show e.score < (passB_record n h s).score from hs)]
  exact lookup_setVal m _ _ e hl

/-- Instantiation of C9: a stored structured-data record with a price loses
it to a higher-scoring fallback record for the same identity key. -/
theorem c9_witness :
    lookupKey (prodInsert mapA (passB_record "Alpha Tee" "https://s/p" 6))
        (product_key (passB_record "Alpha Tee" "https://s/p" 6)) =
      some (passB_record "Alpha Tee" "https://s/p" 6) ∧
    (passB_record "Alpha Tee" "https://s/p" 6).price = J.null ∧
    (passB_record "Alpha Tee" "https://s/p" 6).currency = J.null :=
  c9_fallback_overwrites_price mapA "Alpha Tee" "https://s/p" 6 storedA
    rfl (by decide)

/-- The running maximum of Python `max` never drops below its seed. -/
theorem foldl_maxStep_le (l : List PRecord) :
    ∀ p : PRecord, p.score ≤ (l.foldl maxStep p).score := by
  induction l with
  | nil => intro p; exact le_refl _
  | cons q t ih =>
    intro p
    rw [List.foldl_cons]
    refine le_trans ?_ (ih (maxStep p q))
    by_cases hpq : p.score < q.score
    · rw [maxStep, if_pos hpq]; exact le_of_lt hpq
    · rw [maxStep, if_neg hpq]

/-- Position of the result of Python `max` in its input: everything before
it scores strictly lower (a tie never displaces the running maximum),
everything after scores no higher. -/
theorem foldl_maxStep_decomp (l : List PRecord) :
    ∀ p : PRecord,
      ∃ l1 l2, p :: l = l1 ++ (l.foldl maxStep p) :: l2 ∧
        (∀ q ∈ l1, q.score < (l.foldl maxStep p).score) ∧
        (∀ q ∈ l2, q.score ≤ (l.foldl maxStep p).score) := by
  induction l with
  | nil => intro p; exact ⟨[], [], rfl, by simp, by simp⟩
  | cons q t ih =>
    intro p
    rw [List.foldl_cons]
    by_cases hpq : p.score < q.score
    · rw [show maxStep p q = q from by rw [maxStep, if_pos hpq]]
      obtain ⟨l1, l2, heq, hbef, haft⟩ := ih q
      refine ⟨p :: l1, l2, ?_, ?_, haft⟩
      · rw [List.cons_append, ← heq]
      · intro x hx
        rcases List.mem_cons.mp hx with rfl | hx2
        · exact lt_of_lt_of_le hpq (foldl_maxStep_le t q)
        · exact hbef x hx2
    · rw [show maxStep p q = p from by rw [maxStep, if_neg hpq]]
      obtain ⟨l1, l2, heq, hbef, haft⟩ := ih p
      cases l1 with
      | nil =>
        rw [List.nil_append] at heq
        have hm : t.foldl maxStep p = p := by
          have := (List.cons.injEq p t _ _).mp heq
          exact this.1.symm
        have hl2 : l2 = t := by
          have := (List.cons.injEq p t _ _).mp heq
          exact this.2.symm
        refine ⟨[], q :: t, ?_, by simp, ?_⟩
        · rw [List.nil_append, hm]
        · intro x hx
          rcases List.mem_cons.mp hx with rfl | hx2
          · rw [hm]; exact not_lt.mp hpq
          · exact haft x (hl2 ▸ hx2)
      | cons a l1x =>
        rw [List.cons_append] at heq
        have hinj := (List.cons.injEq p t _ _).mp heq
        have ha : p = a := hinj.1
        have ht : t = l1x ++ (t.foldl maxStep p) :: l2 := hinj.2
        have hpm : p.score < (t.foldl maxStep p).score := by
          have h0 := hbef a (List.Mem.head _)
          rw [← ha] at h0
          exact h0
        refine ⟨p :: q :: l1x, l2, ?_, ?_, haft⟩
        · rw [List.cons_append, List.cons_append, ← ht]
        · intro x hx
          rcases List.mem_cons.mp hx with rfl | hx2
          · exact hpm
          · rcases List.mem_cons.mp hx2 with rfl | hx3
            · exact lt_of_le_of_lt (not_lt.mp hpq) hpm
            · exact hbef x (List.Mem.tail _ hx3)

/-- C7: `choose_best` returns none exactly on the empty list, and
otherwise returns the single highest-scoring item with ties broken by
list order: the result splits the list into a strictly-lower-scoring
prefix (so it is the first maximum encountered) and a
no-higher-scoring suffix. -/
theorem c7_choose_best (ps : List PRecord) (p : PRecord) :
    (choose_best ps = none ↔ ps = []) ∧
    (choose_best ps = some p →
      ∃ l1 l2, ps = l1 ++ p :: l2 ∧ (∀ q ∈ l1, q.score < p.score) ∧
        (∀ q ∈ l2, q.score ≤ p.score)) := by
  cases ps with
  | nil =>
    exact ⟨⟨fun _ => rfl, fun _ => rfl⟩, fun h => by simp [choose_best] at h⟩
  | cons r rest =>
    constructor
    · constructor
      · intro h; simp [choose_best] at h
      · intro h; exact absurd h (List.cons_ne_nil r rest)
    · intro h
      rw [choose_best] at h
      injection h with h2
      rw [← h2]
      exact foldl_maxStep_decomp rest r

/-- Instantiation of C7: on a list with two tied maxima, the first of the
two is chosen. -/
theorem c7_witness :
    ∃ l1 l2, cbList = l1 ++ cbB :: l2 ∧ (∀ q ∈ l1, q.score < cbB.score) ∧
      (∀ q ∈ l2, q.score ≤ cbB.score) :=
  (c7_choose_best cbList cbB).2 rfl

/-- Totality of the persisting comparison. -/
theorem leChars_total (a b : List Char) : leChars a b || leChars b a := by
  induction a generalizing b with
  | nil => simp [leChars]
  | cons x xs ih =>
    cases b with
    | nil => simp [leChars]
    | cons y ys =>
      by_cases hxy : x = y
      · subst hxy
        simpa [leChars] using ih ys
      · have hyx : ¬ (y = x) := fun he => hxy he.symm
        rcases lt_or_gt_of_ne hxy with hlt | hgt
        · simp [leChars, hxy, hyx, hlt]
        · simp [leChars, hxy, hyx, hgt]

/-- Transitivity of the persisting comparison. -/
theorem leChars_trans (a b c : List Char) (hab : leChars a b)
    (hbc : leChars b c) : leChars a c := by
  induction a generalizing b c with
  | nil => simp [leChars]
  | cons x xs ih =>
    cases b with
    | nil => simp [leChars] at hab
    | cons y ys =>
      cases c with
      | nil => simp [leChars] at hbc
      | cons z zs =>
        by_cases hxy : x = y
        · subst hxy
          by_cases hxz : x = z
          · subst hxz
            simp [leChars] at hab hbc ⊢
            exact ih ys zs hab hbc
          · simp [leChars, hxz] at hbc ⊢
            exact hbc
        · by_cases hyz : y = z
          · subst hyz
            simp [leChars, hxy] at hab ⊢
            exact hab
          · simp [leChars, hxy, hyz] at hab hbc
            have hxz : x < z := lt_trans hab hbc
            simp [leChars, ne_of_lt hxz, hxz]

/-- Everything the CLI persists is sorted by lower-cased name. -/
theorem sortBrands_pairwise (l : List BrandEntry) :
    (sortBrands l).Pairwise (fun a b => brandLe a b = true) :=
  @List.sorted_mergeSort BrandEntry brandLe
    (fun _ _ _ hab hbc => leChars_trans _ _ _ hab hbc)
    (fun _ _ => leChars_total _ _) l

/-- C8: behaviour of one `apply_brand_change.py` invocation: the name is
matched case-insensitively (so add upserts and remove deletes by
case-insensitive name); adding an unknown name requires a URL and exits
without saving when it is missing; adding a known name updates its URL in
place only when a different non-empty URL is supplied; removing an absent
name changes no entry; and every list that is persisted is sorted by
lower-cased name. -/
theorem c8_brand_cli (brands : List BrandEntry) (nmRaw urlRaw : String) :
    (∀ l, apply_brand_change brands .add nmRaw urlRaw = some l →
        l.Pairwise (fun a b => brandLe a b = true)) ∧
    (∀ l, apply_brand_change brands .remove nmRaw urlRaw = some l →
        l.Pairwise (fun a b => brandLe a b = true)) ∧
    (∀ nm2, strLower (pyStrip nmRaw) = strLower nm2 →
        idx_of brands (pyStrip nmRaw) = idx_of brands nm2) ∧
    (idx_of brands (pyStrip nmRaw) = none → pyStrip urlRaw = "" →
        apply_brand_change brands .add nmRaw urlRaw = none) ∧
    (idx_of brands (pyStrip nmRaw) = none → pyStrip urlRaw ≠ "" →
        apply_brand_change brands .add nmRaw urlRaw =
          some (sortBrands (brands ++ [⟨pyStrip nmRaw, pyStrip urlRaw⟩]))) ∧
    (∀ i, idx_of brands (pyStrip nmRaw) = some i →
        apply_brand_change brands .add nmRaw urlRaw =
          some (sortBrands
            (if pyStrip urlRaw ≠ "" ∧
                (brands.getD i ⟨"", ""⟩).url ≠ pyStrip urlRaw
              then brands.set i ⟨(brands.getD i ⟨"", ""⟩).name, pyStrip urlRaw⟩
              else brands))) ∧
    (idx_of brands (pyStrip nmRaw) = none →
        apply_brand_change brands .remove nmRaw urlRaw =
          some (sortBrands brands) ∧ (sortBrands brands).Perm brands) ∧
    (∀ i, idx_of brands (pyStrip nmRaw) = some i →
        apply_brand_change brands .remove nmRaw urlRaw =
          some (sortBrands (brands.eraseIdx i))) := by
  refine ⟨?_, ?_, ?_, ?_, ?_, ?_, ?_, ?_⟩
  · intro l hl
    rw [apply_brand_change] at hl
    cases hidx : idx_of brands (pyStrip nmRaw) with
    | some i =>
      rw [hidx] at hl
      simp only [] at hl
      injection hl with hl2
      rw [← hl2]
      exact sortBrands_pairwise _
    | none =>
      rw [hidx] at hl
      by_cases hurl : pyStrip urlRaw = ""
      · rw [if_pos hurl] at hl
        exact absurd hl (by simp)
      · rw [if_neg hurl] at hl
        injection hl with hl2
        rw [← hl2]
        exact sortBrands_pairwise _
  · intro l hl
    rw [apply_brand_change] at hl
    cases hidx : idx_of brands (pyStrip nmRaw) with
    | some i =>
      rw [hidx] at hl
      injection hl with hl2
      rw [← hl2]
      exact sortBrands_pairwise _
    | none =>
      rw [hidx] at hl
      injection hl with hl2
      rw [← hl2]
      exact sortBrands_pairwise _
  · intro nm2 he
    rw [idx_of, idx_of, he]
  · intro hidx hurl
    rw [apply_brand_change, hidx, if_pos hurl]
  · intro hidx hurl
    rw [apply_brand_change, hidx, if_neg hurl]
  · intro i hidx
    rw [apply_brand_change, hidx]
  · intro hidx
    exact ⟨by rw [apply_brand_change, hidx], List.mergeSort_perm _ _⟩
  · intro i hidx
    rw [apply_brand_change, hidx]

/-- Instantiation of C8: removing an absent name re-persists the sorted
list unchanged; adding a new name with a blank URL exits without saving. -/
theorem c8_witness :
    (apply_brand_change brandsEx .remove "zzz" "" = some (sortBrands brandsEx) ∧
      (sortBrands brandsEx).Perm brandsEx) ∧
    apply_brand_change brandsEx .add "New" "  " = none :=
  ⟨(c8_brand_cli brandsEx "zzz" "").2.2.2.2.2.2.1 rfl,
   (c8_brand_cli brandsEx "New" "  ").2.2.2.1 rfl rfl⟩
